import Mathlib

/-!
Verification of the `arcadedb_connector` Python client library
(`src/arcadedb_connector/client.py`, `config.py`, `utils.py`).

Python strings are modelled as `List Char`; Python integers as `Nat` where
the source only ever handles non-negative values (versions, row counts,
batch sizes).  Fallible paths (`raise`) are modelled with `Except`/`Option`.
Server responses (the JSON bodies the HTTP layer hands back) are modelled
explicitly as arguments, since the remote ArcadeDB server is an external
collaborator of the code under verification.

Layout: all definitions first, then all theorems.
-/

namespace ArcadeDB

/-! ## Definitions -/

/-! ### Basic characters used by the client string handling -/

/-- The `#` separator of composite `bucket#table#version` identifiers. -/
def hashC : Char := Char.ofNat 35

/-- Double quote `"`. -/
def dquoteC : Char := Char.ofNat 34

/-- Single quote. -/
def squoteC : Char := Char.ofNat 39

/-- Backslash. -/
def bslashC : Char := Char.ofNat 92

/-- Backquote, used by the client to quote identifiers containing `#`. -/
def backqC : Char := Char.ofNat 96

/-! ### Python `str.split("#")` -/

/-- Helper for `splitOnHash`: returns the first field and the remaining
fields of splitting on `#`, mirroring Python `str.split("#")`. -/
def splitOnHashP : List Char → List Char × List (List Char)
  | [] => ([], [])
  | c :: cs =>
    let r := splitOnHashP cs
    if c = hashC then ([], r.1 :: r.2) else (c :: r.1, r.2)

/-- Python `name.split("#")` (always returns at least one part;
splitting the empty string yields one empty part). -/
def splitOnHash (l : List Char) : List (List Char) :=
  (splitOnHashP l).1 :: (splitOnHashP l).2

/-! ### Rendering of non-negative integers (Python `str` and format calls) -/

/-- The decimal digit character for `n % 10`. -/
def digitChar (n : Nat) : Char := Char.ofNat (48 + n % 10)

/-- Fuel-indexed helper for `natChars` (structural recursion so that the
definition evaluates inside the kernel; `fuel = n + 1` always suffices
because `n / 10 < n` for `n ≥ 10`). -/
def natCharsAux : Nat → Nat → List Char
  | 0, _ => []
  | fuel + 1, n =>
    if n < 10 then [digitChar n]
    else natCharsAux fuel (n / 10) ++ [digitChar (n % 10)]

/-- Decimal rendering of a natural number, as Python `str(n)` produces. -/
def natChars (n : Nat) : List Char := natCharsAux (n + 1) n

/-! ### Identifier codec (claim C8)

Encoding is the f-string interpolation of bucket, table and version with
`#` separators used at `client.py:386/388/623`; decoding is
`_parse_table_name` (`client.py:1009-1014`).  The source decoder
additionally returns the current wall-clock timestamp, which carries no
information about the parsed identifier and is omitted from the model
(real time is outside the embedding). -/

/-- The f-string interpolation of bucket, table and version with `#`
separators. -/
def encodeTableName (bucket table : List Char) (version : Nat) : List Char :=
  bucket ++ hashC :: (table ++ hashC :: natChars version)

/-- Decoder `_parse_table_name` (`client.py:1009-1014`): split on `#`;
nothing unless exactly 3 parts result; otherwise the triple
(classname, version, bucket) taken from parts 1, 2 and 0 (the timestamp
component is omitted, see above). -/
def parse_table_name (table_name : List Char) :
    Option (List Char × List Char × List Char) :=
  match splitOnHash table_name with
  | [b, t, v] => some (t, v, b)
  | _ => none

/-! ### Schema drop (claim C9)

`drop_schema` (`client.py:903-934`): back-quotes the name when it contains
`#` and issues the `DROP TYPE ... IF EXISTS UNSAFE` command. -/

/-- Back-quoting applied to the schema name when it contains `#`
(`client.py:919`). -/
def backquoteIfHash (s : List Char) : List Char :=
  if s.contains hashC then backqC :: (s ++ [backqC]) else s

/-- The command string built by `drop_schema` (`client.py:922`). -/
def drop_schema_command (schema_name : List Char) : List Char :=
  ("DROP TYPE ").toList ++ backquoteIfHash schema_name ++ (" IF EXISTS UNSAFE").toList

/-! ### Configuration (claim C10)

`ArcadeDBConfig` (`config.py:13-123`).  Only the fields and `to_dict`
matter for the claim; `model_dump` is the pydantic field-by-field dump. -/

structure ArcadeDBConfig where
  host : List Char
  port : Nat
  database : List Char
  username : List Char
  password : List Char
  use_ssl : Bool
  timeout : Nat
  max_retries : Nat
deriving DecidableEq

/-- The dictionary produced by `model_dump()` / returned by `to_dict()`:
one entry per configuration field. -/
structure ConfigDict where
  host : List Char
  port : Nat
  database : List Char
  username : List Char
  password : List Char
  use_ssl : Bool
  timeout : Nat
  max_retries : Nat
deriving DecidableEq

/-- Pydantic `model_dump()`: every field, including the password. -/
def model_dump (c : ArcadeDBConfig) : ConfigDict :=
  ⟨c.host, c.port, c.database, c.username, c.password, c.use_ssl,
   c.timeout, c.max_retries⟩

/-- Method `to_dict` (`config.py:118-123`): the result of `model_dump`
with the password entry overwritten by the three-star mask. -/
def to_dict (c : ArcadeDBConfig) : ConfigDict :=
  { model_dump c with password := ("***").toList }

/-! ### Latest versioned table name (claim C5)

Function `get_latest_table_name` (`client.py:355-392`).  The server reply
to the `select bucket, classname, max(version) from versions ...` query is
modelled as a function from the queried `(classname, bucket-string)` pair
to the optional first result row. -/

/-- One row of the latest-version query result. -/
structure LatestRow where
  b : List Char
  classname : List Char
  version : Nat

/-- Python truthiness test `not bucket` for an optional string:
true for `None` and for the empty string. -/
def pyFalsy (bucket : Option (List Char)) : Bool :=
  match bucket with
  | none => true
  | some s => s.isEmpty

/-- Python string interpolation of an optional string:
`None` renders as the four characters `None`. -/
def formatOptStr (bucket : Option (List Char)) : List Char :=
  match bucket with
  | some s => s
  | none => ("None").toList

/-- The query-and-reencode tail of `get_latest_table_name`
(`client.py:368-388`): on a result row, the f-string joining the row
fields b, classname and version with `#` separators; with no row, the
f-string joining the bucket, the name and the literal 0. -/
def queryLatest (name : List Char) (bucket : Option (List Char))
    (resp : List Char → List Char → Option LatestRow) : List Char :=
  match resp name (formatOptStr bucket) with
  | some row => row.b ++ hashC :: (row.classname ++ hashC :: natChars row.version)
  | none => formatOptStr bucket ++ hashC :: (name ++ hashC :: natChars 0)

/-- Function `get_latest_table_name` (`client.py:355-392`): when the name
contains `#` and no truthy bucket is supplied, a 3-part split reassigns
bucket and name to parts 0 and 1 (any other part count leaves both
unchanged) and control always falls through to the query; only a `#`-free
name with no truthy bucket returns early. -/
def get_latest_table_name (name : List Char) (bucket : Option (List Char))
    (resp : List Char → List Char → Option LatestRow) : List Char :=
  if name.contains hashC && pyFalsy bucket then
    match splitOnHash name with
    | [b0, t0, _] => queryLatest t0 (some b0) resp
    | _ => queryLatest name bucket resp
  else if pyFalsy bucket then name
  else queryLatest name bucket resp

/-! ### Next version resolution (claim C2)

`get_next_version` (`client.py:314-353`).  The JSON body of the
`SELECT max(version) as lastversion FROM versions WHERE ...` command is
modelled as `Option (List (Option SqlVal))`: `none` when the body has no
`result` key, otherwise the list of result rows, each row mapped to the
optional value of its `lastversion` key (`none` = key absent,
`some vnull` = JSON null, `some (vint n)` = integer). -/

/-- A JSON value in a `lastversion` column: null or an integer. -/
inductive SqlVal where
  | vnull
  | vint (n : Nat)
deriving DecidableEq

/-- Response handling of `get_next_version` (`client.py:342-348`):
`(1, True)` when the result list is missing or empty; otherwise the head
row is read with `.get` (default 0) and `(lastVersion + 1, lastVersion > 0)`
is returned.  A JSON-null `lastversion` makes the Python `lastVersion + 1`
raise a `TypeError`, re-raised as `ArcadeDBError` by the catch-all
handler. -/
def get_next_version (resp : Option (List (Option SqlVal))) :
    Except (List Char) (Nat × Bool) :=
  match resp with
  | none => Except.ok (1, true)
  | some [] => Except.ok (1, true)
  | some (row :: _) =>
    match row.getD (SqlVal.vint 0) with
    | SqlVal.vint lastVersion => Except.ok (lastVersion + 1, decide (0 < lastVersion))
    | SqlVal.vnull =>
        Except.error ("Failed to update counter: unsupported operand type").toList

/-- One row of the `versions` log table (timestamp omitted; it does not
participate in the max-version query). -/
structure VersionEntry where
  classname : List Char
  b : List Char
  version : Nat
deriving DecidableEq

/-- The versions of the log entries matching a `(classname, bucket)` pair. -/
def matchingVersions (log : List VersionEntry) (classname b : List Char) :
    List Nat :=
  (log.filter (fun e => e.classname == classname && e.b == b)).map
    (fun e => e.version)

/-- The server reply to the `max(version)` aggregate: an empty result set
when no log entry matches (this is the emptiness the code anticipates in
its empty-result branch), and otherwise a single row carrying the maximum
matching version. -/
def maxVersionResponse (log : List VersionEntry) (classname b : List Char) :
    Option (List (Option SqlVal)) :=
  if matchingVersions log classname b = [] then some []
  else some [some (SqlVal.vint ((matchingVersions log classname b).foldl Nat.max 0))]

/-! ### Column descriptor validation (claim C7)

`insert_dataframe` (`client.py:626-641`).  A descriptor is modelled by
which of the three required keys (`name`, `type`, `index`) it carries.
The source checks that the three keys name, type and index are all
present in `columns[0]` — the FIRST descriptor only. -/

/-- Key presence of one column descriptor. -/
structure ColumnDesc where
  hasName : Bool
  hasType : Bool
  hasIndex : Bool
deriving DecidableEq

/-- The validation step of `insert_dataframe` (`client.py:633-636`): with a
non-empty list, only `columns[0]` is inspected; an empty list makes the
Python subscript raise `IndexError`. -/
def insert_dataframe_check (columns : List ColumnDesc) :
    Except (List Char) Unit :=
  match columns with
  | [] => Except.error ("IndexError: list index out of range").toList
  | c :: _ =>
    if c.hasName && c.hasType && c.hasIndex then Except.ok ()
    else Except.error
      ("Invalid columns format. Each column must have name, type, and index keys.").toList

/-! ### Rollback on batch-insert failure (claim C6)

The per-batch error handler of `insert_data` (`client.py:734-748`) and
`rollback_transaction` (`client.py:832-850`).  An exception is modelled by
the list of messages along its implicit `__context__` chain (Python
attaches the exception being handled as `__context__` of any exception
raised inside the handler): the head is the exception that reaches the
caller, the tail its chained causes. -/

/-- The insert-failure message: the fixed prefix, the schema name, a colon
and the underlying error text. -/
def insertFailMsg (schema_name e : List Char) : List Char :=
  ("Failed to insert records into schema ").toList ++ schema_name
    ++ (": ").toList ++ e

/-- The rollback-failure message: the fixed prefix and the underlying
error text. -/
def rollbackFailMsg (r : List Char) : List Char :=
  ("Failed to rollback transaction: ").toList ++ r

/-- The batch loop of `insert_data` restricted to its failure behaviour:
`batchResults` holds `none` for each batch command that succeeds and
`some e` for one that raises with message `e`; `rollbackResult` is `none`
when the rollback succeeds and `some r` when it fails with message `r`.
Returns the number of rollback calls issued and, if an exception escapes,
its `__context__` message chain: on rollback success the handler raises
`ArcadeDBError(insertFailMsg)` chained on the original batch error; on
rollback failure the `ArcadeDBError` raised inside `rollback_transaction`
escapes instead, chained on the raw rollback error and the original batch
error, and the final `raise` of the insert handler is never reached. -/
def insert_data_run (schema_name : List Char)
    (batchResults : List (Option (List Char)))
    (rollbackResult : Option (List Char)) :
    Nat × Option (List (List Char)) :=
  match batchResults with
  | [] => (0, none)
  | none :: rest => insert_data_run schema_name rest rollbackResult
  | some e :: _ =>
    match rollbackResult with
    | none => (1, some [insertFailMsg schema_name e, e])
    | some r => (1, some [rollbackFailMsg r, r, e])

/-! ### Cell literal encoding in the batch writer (claim C4)

The per-cell rendering of `insert_data` (`client.py:700-719`).  A cell
value is classified exactly as the `isinstance` chain of the source does,
in its order: `None` / NaN float, then `list` (items already passed
through Python `str`), then `str`, then `bool`, then everything else
(rendered by `str`).  The constructors are mutually exclusive, so the
priority order of the chain is captured by the disjointness of the
cases. -/

/-- A Python cell value as classified by `insert_data`. -/
inductive PyVal where
  | vnone
  | vnan
  | vlist (items : List (List Char))
  | vstr (s : List Char)
  | vbool (b : Bool)
  | vother (r : List Char)
deriving DecidableEq

/-- Python `s.replace(c, r)` for a single-character pattern `c`. -/
def replaceChar (s : List Char) (c : Char) (r : List Char) : List Char :=
  match s with
  | [] => []
  | x :: xs => (if x = c then r else [x]) ++ replaceChar xs c r

/-- The literal rendered for one cell (`client.py:700-719`):
`NULL` for `None`/NaN; for lists, the comma-join of the items wrapped in
square brackets, each item double-quoted after backslash-escaping its
internal double quotes; for strings, two successive replace passes that
double every double quote and then every single quote, wrapped in single
quotes; `true`/`false` for booleans; the `str` conversion otherwise. -/
def encodeCell : PyVal → List Char
  | PyVal.vnone => ("NULL").toList
  | PyVal.vnan => ("NULL").toList
  | PyVal.vlist items =>
    let escaped_items := items.map
      (fun v => dquoteC :: (replaceChar v dquoteC [bslashC, dquoteC] ++ [dquoteC]))
    '[' :: (List.intercalate [','] escaped_items ++ [']'])
  | PyVal.vstr s =>
    squoteC ::
      (replaceChar (replaceChar s dquoteC [dquoteC, dquoteC])
          squoteC [squoteC, squoteC] ++ [squoteC])
  | PyVal.vbool b => if b then ("true").toList else ("false").toList
  | PyVal.vother r => r

/-- Character-by-character escaping as the spec words it for strings:
every double quote and every single quote is doubled. -/
def specEscapeQuotes : List Char → List Char
  | [] => []
  | c :: cs =>
    (if c = dquoteC then [dquoteC, dquoteC]
     else if c = squoteC then [squoteC, squoteC]
     else [c]) ++ specEscapeQuotes cs

/-- Character-by-character escaping as the spec words it for list items:
every internal double quote is backslash-escaped. -/
def specEscapeItem : List Char → List Char
  | [] => []
  | c :: cs => (if c = dquoteC then [bslashC, dquoteC] else [c]) ++ specEscapeItem cs

/-! ### Batch chunking in the writer (claim C1)

`insert_data` (`client.py:683-725`): `total_records = data.shape[0]` is
taken BEFORE the slice at `client.py:690` removes the first row; the loop
`for i in range(0, total_records, batch_size)` then slices
`data.iloc[i:i + batch_size]` and issues one INSERT command per iteration,
also when the slice is empty. -/

/-- Python `range(0, stop, step)` for `step > 0`: the multiples of `step`
below `stop`, of which there are `⌈stop / step⌉`. -/
def pyRange0 (stop step : Nat) : List Nat :=
  (List.range ((stop + step - 1) / step)).map (fun i => i * step)

/-- The per-command batches built by `insert_data` (`client.py:683-696`):
one entry per issued INSERT command, holding the rows rendered into it. -/
def insertBatches {α : Type} (rows : List α) (batch_size : Nat) : List (List α) :=
  let total_records := rows.length
  let data := rows.drop 1
  (pyRange0 total_records batch_size).map
    (fun i => (data.drop i).take batch_size)

/-! ### Paginated read (claim C3)

Function `read_data` (`client.py:511-616`).  A table is modelled by its
list of record identifiers in ascending server order (record identifiers
are unique and order-comparable, so a strictly sorted list of `Nat`).
The server answer to
`SELECT ... [WHERE @rid > last_rid] ORDER BY @rid LIMIT limit` is the
`limit`-prefix of the (sorted) rows above the cursor. -/

/-- The rows matching the optional `WHERE @rid > last_rid` cursor clause,
in `ORDER BY @rid` order (the table list is already ascending). -/
def pageRows (table : List Nat) (lastRid : Option Nat) : List Nat :=
  match lastRid with
  | none => table
  | some r => table.filter (fun x => decide (r < x))

/-- The `while True` pagination loop of `read_data` (`client.py:573-602`):
each iteration issues one page request; an empty page stops with the
results so far; a short page (`len(data) < limit`) stops after extending;
a full page advances the cursor to the last row of the page and continues.
`fuel` bounds the iterations so the loop is a total function; `none` means
the fuel was exhausted (the loop would still be running).  The returned
pair is (accumulated rows, number of page requests issued). -/
def readLoop (fuel : Nat) (table : List Nat) (lastRid : Option Nat)
    (limit : Nat) (results : List Nat) (count : Nat) :
    Option (List Nat × Nat) :=
  match fuel with
  | 0 => none
  | fuel + 1 =>
    let data := (pageRows table lastRid).take limit
    if data = [] then some (results, count + 1)
    else if data.length < limit then some (results ++ data, count + 1)
    else readLoop fuel table (some (data.getLastD 0)) limit
      (results ++ data) (count + 1)

/-- The hardcoded page size of `read_data` (`client.py:570`). -/
def NEW_PAGE_SIZE : Nat := 20000

/-- Function `read_data` (`client.py:539-602`): the `COUNT` pre-check
returns an empty result with zero page requests for an empty table;
otherwise the pagination loop runs (fuel `table.length + 1` is always
sufficient, as the totality theorem below shows). -/
def read_data (table : List Nat) (limit : Nat) : Option (List Nat × Nat) :=
  if table.length = 0 then some ([], 0)
  else readLoop (table.length + 1) table none limit [] 0

/-- Variant of `read_data` with the limit selection of the source:
`NEW_PAGE_SIZE` when positive, the row count otherwise (`client.py:571`). -/
def read_data_src (table : List Nat) : Option (List Nat × Nat) :=
  read_data table (if 0 < NEW_PAGE_SIZE then NEW_PAGE_SIZE else table.length)

/-- Number of page requests the loop issues for `n` remaining rows and
page size `P`: one extra trailing request when `P` exactly divides `n`
(including `n = 0`), else `⌈n / P⌉`. -/
def numPagesLen (n P : Nat) : Nat :=
  if P ∣ n then n / P + 1 else (n + P - 1) / P

/-! ## Theorems -/

/-! ### Supporting lemmas for the codec -/

theorem digitChar_ne_hashC (n : Nat) : digitChar n ≠ hashC := by
  have h : n % 10 < 10 := Nat.mod_lt _ (by omega)
  unfold digitChar hashC
  set k := n % 10 with hk
  interval_cases k <;> decide

theorem natCharsAux_not_hashC :
    ∀ fuel n : Nat, ∀ c ∈ natCharsAux fuel n, c ≠ hashC := by
  intro fuel
  induction fuel with
  | zero => intro n c hc; simp [natCharsAux] at hc
  | succ fuel ih =>
    intro n c hc
    rw [natCharsAux] at hc
    by_cases h : n < 10
    · simp only [if_pos h, List.mem_singleton] at hc
      exact hc ▸ digitChar_ne_hashC n
    · simp only [if_neg h, List.mem_append, List.mem_singleton] at hc
      rcases hc with hc | hc
      · exact ih (n / 10) c hc
      · exact hc ▸ digitChar_ne_hashC (n % 10)

theorem natChars_not_hashC (n : Nat) : ∀ c ∈ natChars n, c ≠ hashC :=
  natCharsAux_not_hashC (n + 1) n

theorem splitOnHashP_of_not_mem {l : List Char} (h : hashC ∉ l) :
    splitOnHashP l = (l, []) := by
  induction l with
  | nil => rfl
  | cons c cs ih =>
    have hc : c ≠ hashC := fun hc => h (hc ▸ List.mem_cons_self c cs)
    have hcs : hashC ∉ cs := fun hm => h (List.mem_cons_of_mem c hm)
    simp [splitOnHashP, ih hcs, hc]

theorem splitOnHashP_append {a : List Char} (ha : hashC ∉ a) (rest : List Char) :
    splitOnHashP (a ++ hashC :: rest) = (a, splitOnHash rest) := by
  induction a with
  | nil => simp [splitOnHashP, splitOnHash]
  | cons c cs ih =>
    have hc : c ≠ hashC := fun hc => ha (hc ▸ List.mem_cons_self c cs)
    have hcs : hashC ∉ cs := fun hm => ha (List.mem_cons_of_mem c hm)
    simp [splitOnHashP, ih hcs, hc]

theorem splitOnHash_append {a : List Char} (ha : hashC ∉ a) (rest : List Char) :
    splitOnHash (a ++ hashC :: rest) = a :: splitOnHash rest := by
  simp [splitOnHash, splitOnHashP_append ha rest]

theorem splitOnHash_of_not_mem {l : List Char} (h : hashC ∉ l) :
    splitOnHash l = [l] := by
  simp [splitOnHash, splitOnHashP_of_not_mem h]

theorem splitOnHash_encode {bucket table : List Char}
    (hb : hashC ∉ bucket) (ht : hashC ∉ table) (version : Nat) :
    splitOnHash (encodeTableName bucket table version)
      = [bucket, table, natChars version] := by
  have hv : hashC ∉ natChars version := fun hm =>
    natChars_not_hashC version hashC hm rfl
  unfold encodeTableName
  rw [splitOnHash_append hb, splitOnHash_append ht, splitOnHash_of_not_mem hv]

/-! ### Claim C8 -/

/-- C8 (amended): for all `(bucket, table, version)` with non-empty,
`#`-free `bucket` and `table` and `version ≥ 0`, decoding the encoded
composite identifier `bucket#table#version` yields back exactly
`(bucket, table, version)` (the version rendered in decimal, as the
decoder does not parse it back to an integer); and decoding returns
nothing whenever splitting the identifier on `#` does not yield exactly
3 parts.  The `#`-freeness hypotheses are forced: a `#` inside `bucket`
or `table` makes the split yield more than 3 parts. -/
theorem identifier_roundtrip_corrected (bucket table : List Char) (version : Nat)
    (hbne : bucket ≠ []) (htne : table ≠ [])
    (hb : hashC ∉ bucket) (ht : hashC ∉ table) :
    parse_table_name (encodeTableName bucket table version)
      = some (table, natChars version, bucket) ∧
    ∀ s : List Char, (splitOnHash s).length ≠ 3 → parse_table_name s = none := by
  constructor
  · unfold parse_table_name
    rw [splitOnHash_encode hb ht]
  · intro s hs
    unfold parse_table_name
    generalize h : splitOnHash s = ps
    rw [h] at hs
    rcases ps with _ | ⟨a, _ | ⟨b, _ | ⟨c, _ | ⟨d, l⟩⟩⟩⟩
    · rfl
    · rfl
    · rfl
    · simp at hs
    · rfl

/-- Witness for C8: the round trip at `("URA", "permits", 7)`. -/
theorem identifier_roundtrip_corrected_witness :
    parse_table_name (encodeTableName ("URA").toList ("permits").toList 7)
      = some (("permits").toList, natChars 7, ("URA").toList) :=
  (identifier_roundtrip_corrected ("URA").toList ("permits").toList 7
    (by decide) (by decide) (by decide) (by decide)).1

/-- C8 counterexample: the claim as stated (hypotheses only requiring
non-empty `bucket`/`table` and `version ≥ 0`) is false: with the non-empty
bucket `"a#b"`, table `"c"` and version `0`, decoding the encoding yields
nothing instead of the original triple, because the extra `#` inside the
bucket makes the split yield 4 parts. -/
theorem identifier_roundtrip_claim_false :
    ("a#b").toList ≠ ([] : List Char) ∧ ("c").toList ≠ ([] : List Char) ∧
    parse_table_name (encodeTableName ("a#b").toList ("c").toList 0) = none := by
  decide

/-! ### Claim C9 -/

/-- C9 (amended): `drop_schema` issues `DROP TYPE <name> IF EXISTS UNSAFE`
for every schema name: the `UNSAFE` modifier is emitted unconditionally.
There is no opt-in flag in the source; the modifier is always present. -/
theorem drop_schema_command_spec (schema_name : List Char) :
    drop_schema_command schema_name
      = ("DROP TYPE ").toList ++ backquoteIfHash schema_name
          ++ (" IF EXISTS UNSAFE").toList
    ∧ (" IF EXISTS UNSAFE").toList <:+ drop_schema_command schema_name :=
  ⟨rfl, ⟨("DROP TYPE ").toList ++ backquoteIfHash schema_name, rfl⟩⟩

/-- C9 counterexample: the claim says the `UNSAFE` modifier is never emitted
by default, but for the plain name `"T"` the emitted command is
`DROP TYPE T IF EXISTS UNSAFE`, not `DROP TYPE T IF EXISTS`. -/
theorem drop_schema_claim_false :
    drop_schema_command ("T").toList = ("DROP TYPE T IF EXISTS UNSAFE").toList ∧
    drop_schema_command ("T").toList ≠ ("DROP TYPE T IF EXISTS").toList := by
  decide

/-! ### Claim C10 -/

/-- C10 (confirmed): two valid configurations differing only in the
password field yield identical `to_dict()` output, and the `password`
entry of that output is always the literal `"***"` — the output does not
depend on the configured password. -/
theorem to_dict_masks_password (c1 c2 : ArcadeDBConfig)
    (hhost : c1.host = c2.host) (hport : c1.port = c2.port)
    (hdb : c1.database = c2.database) (huser : c1.username = c2.username)
    (hssl : c1.use_ssl = c2.use_ssl) (htimeout : c1.timeout = c2.timeout)
    (hretries : c1.max_retries = c2.max_retries) :
    to_dict c1 = to_dict c2 ∧ (to_dict c1).password = ("***").toList := by
  refine ⟨?_, rfl⟩
  simp only [to_dict, model_dump, ConfigDict.mk.injEq]
  exact ⟨hhost, hport, hdb, huser, trivial, hssl, htimeout, hretries⟩

/-- Witness for C10: two concrete configurations differing only in the
password produce the same masked dictionary. -/
theorem to_dict_masks_password_witness :
    to_dict ⟨("localhost").toList, 2480, ("db").toList, ("root").toList,
             ("secretA").toList, false, 30, 3⟩
      = to_dict ⟨("localhost").toList, 2480, ("db").toList, ("root").toList,
                 ("secretB").toList, false, 30, 3⟩ ∧
    (to_dict ⟨("localhost").toList, 2480, ("db").toList, ("root").toList,
              ("secretA").toList, false, 30, 3⟩).password = ("***").toList :=
  to_dict_masks_password _ _ rfl rfl rfl rfl rfl rfl rfl

/-! ### Claim C5 -/

theorem queryLatest_eq (name : List Char) (bucket : Option (List Char))
    (resp : List Char → List Char → Option LatestRow) :
    queryLatest name bucket resp =
      match resp name (formatOptStr bucket) with
      | some row => encodeTableName row.b row.classname row.version
      | none => encodeTableName (formatOptStr bucket) name 0 := rfl

/-- C5 (amended): a name without `#` and no bucket is returned unchanged;
a name splitting into exactly 3 parts on `#` (empty parts included — the
code checks only the part count, not non-emptiness) is resolved through
the versions query with bucket and table taken from parts 0 and 1 and
re-encoded as `bucket#table#maxVersion` (or `bucket#table#0` with no log
entry); but a name containing `#` that does not split into exactly 3
parts is NOT passed through unchanged: it is queried as-is, with the
absent bucket rendered as the literal string `None`, and re-encoded. -/
theorem get_latest_table_name_corrected
    (name : List Char) (bucket : Option (List Char))
    (resp : List Char → List Char → Option LatestRow) :
    (name.contains hashC = false → pyFalsy bucket = true →
      get_latest_table_name name bucket resp = name) ∧
    (∀ b0 t0 v0, pyFalsy bucket = true → splitOnHash name = [b0, t0, v0] →
      name.contains hashC = true →
      get_latest_table_name name bucket resp =
        match resp t0 b0 with
        | some row => encodeTableName row.b row.classname row.version
        | none => encodeTableName b0 t0 0) ∧
    (bucket = none → name.contains hashC = true →
      (splitOnHash name).length ≠ 3 →
      get_latest_table_name name bucket resp =
        match resp name (("None").toList) with
        | some row => encodeTableName row.b row.classname row.version
        | none => encodeTableName (("None").toList) name 0) := by
  refine ⟨?_, ?_, ?_⟩
  · intro hno hfalsy
    unfold get_latest_table_name
    rw [hno, hfalsy]
    simp
  · intro b0 t0 v0 hfalsy hsplit hcontains
    unfold get_latest_table_name
    rw [hcontains, hfalsy, hsplit]
    exact queryLatest_eq t0 (some b0) resp
  · intro hnone hcontains hlen
    subst hnone
    unfold get_latest_table_name
    rw [hcontains]
    generalize hps : splitOnHash name = ps
    rw [hps] at hlen
    rcases ps with _ | ⟨a, _ | ⟨b, _ | ⟨c, _ | ⟨d, l⟩⟩⟩⟩
    · exact queryLatest_eq name none resp
    · exact queryLatest_eq name none resp
    · exact queryLatest_eq name none resp
    · simp at hlen
    · exact queryLatest_eq name none resp

/-- Witness for C5: resolving `"a#b#c"` with no bucket and an empty
versions log yields `"a#b#0"`. -/
theorem get_latest_table_name_corrected_witness :
    get_latest_table_name ("a#b#c").toList none (fun _ _ => none) = ("a#b#0").toList := by
  have h := (get_latest_table_name_corrected ("a#b#c").toList none
      (fun _ _ => none)).2.1 ("a").toList ("b").toList ("c").toList
      rfl (by decide) (by decide)
  exact h.trans (by decide)

/-- C5 counterexample: the claim says a name whose split on `#` does not
yield exactly 3 parts is passed through unchanged, but `"a#b"` (2 parts,
no bucket, empty versions log) is resolved to `"None#a#b#0"`. -/
theorem get_latest_table_name_passthrough_claim_false :
    get_latest_table_name ("a#b").toList none (fun _ _ => none)
        = ("None#a#b#0").toList ∧
    get_latest_table_name ("a#b").toList none (fun _ _ => none)
        ≠ ("a#b").toList := by
  decide

/-! ### Claim C2 -/

/-- C2 (amended): with log entries for `(table, bucket)` whose maximum
version is `v`, `get_next_version` returns `(v + 1, v > 0)` — so `(v+1,
true)` for `v > 0` and `(1, false)` for maximum `0`, as claimed; but with
NO entries for the pair (empty result set) it returns `(1, true)`, not the
claimed `(1, false)`.  A result row whose `lastversion` key is absent also
yields `(1, false)`. -/
theorem get_next_version_corrected (log : List VersionEntry)
    (classname b : List Char) (v : Nat) :
    (matchingVersions log classname b ≠ [] →
      (matchingVersions log classname b).foldl Nat.max 0 = v →
      get_next_version (maxVersionResponse log classname b)
        = Except.ok (v + 1, decide (0 < v))) ∧
    (matchingVersions log classname b = [] →
      get_next_version (maxVersionResponse log classname b)
        = Except.ok (1, true)) ∧
    get_next_version (some [Option.none]) = Except.ok (1, false) := by
  refine ⟨?_, ?_, rfl⟩
  · intro hne hmax
    unfold maxVersionResponse
    rw [if_neg hne, hmax]
    rfl
  · intro he
    unfold maxVersionResponse
    rw [if_pos he]
    rfl

/-- Witness for C2: a log holding versions 1 and 3 for `("t", "b")` yields
`(4, true)`; version 0 only yields `(1, false)`. -/
theorem get_next_version_corrected_witness :
    get_next_version (maxVersionResponse
        [⟨("t").toList, ("b").toList, 1⟩, ⟨("t").toList, ("b").toList, 3⟩]
        ("t").toList ("b").toList) = Except.ok (4, true) ∧
    get_next_version (maxVersionResponse [⟨("t").toList, ("b").toList, 0⟩]
        ("t").toList ("b").toList) = Except.ok (1, false) :=
  ⟨(get_next_version_corrected
      [⟨("t").toList, ("b").toList, 1⟩, ⟨("t").toList, ("b").toList, 3⟩]
      (("t").toList) (("b").toList) 3).1 (by decide) (by decide),
   (get_next_version_corrected [⟨("t").toList, ("b").toList, 0⟩]
      (("t").toList) (("b").toList) 0).1 (by decide) (by decide)⟩

/-- C2 counterexample: with no log entries for the pair, the code returns
`(1, True)`, not the claimed `(1, false)`. -/
theorem get_next_version_empty_claim_false :
    get_next_version (maxVersionResponse [] ("t").toList ("b").toList)
        = Except.ok (1, true) ∧
    get_next_version (maxVersionResponse [] ("t").toList ("b").toList)
        ≠ Except.ok (1, false) := by
  refine ⟨rfl, fun h => ?_⟩
  rw [show get_next_version (maxVersionResponse [] ("t").toList ("b").toList)
        = Except.ok (1, true) from rfl] at h
  simp at h

/-! ### Claim C7 -/

/-- C7 (amended): only the FIRST descriptor is validated: the outcome is
independent of every descriptor after the first, and validation succeeds
exactly when the first descriptor carries all three keys.  A later
descriptor missing keys is not caught (its absent name/type silently
default during property creation). -/
theorem insert_dataframe_validation_corrected (c : ColumnDesc)
    (rest1 rest2 : List ColumnDesc) :
    insert_dataframe_check (c :: rest1) = insert_dataframe_check (c :: rest2) ∧
    (insert_dataframe_check (c :: rest1) = Except.ok () ↔
      (c.hasName && c.hasType && c.hasIndex) = true) := by
  constructor
  · rfl
  · rcases c with ⟨hn, ht, hi⟩
    cases hn <;> cases ht <;> cases hi <;> simp [insert_dataframe_check]

/-- C7 counterexample: a list whose second descriptor is missing all three
keys passes validation — no validation error is signalled. -/
theorem insert_dataframe_validation_claim_false :
    insert_dataframe_check [⟨true, true, true⟩, ⟨false, false, false⟩]
        = Except.ok () ∧
    (([⟨true, true, true⟩, ⟨false, false, false⟩] : List ColumnDesc).any
        (fun c => !c.hasName)) = true :=
  ⟨rfl, rfl⟩

/-! ### Claim C6 -/

/-- C6 (confirmed): when a batch insert command fails, exactly one rollback
is issued; on rollback success the error reaching the caller is the
insertion error naming the failing table, chained on the original failure;
if the rollback itself fails, the escaping chain still carries both the
rollback error and the original insert failure — the insert failure is
retained via the implicit Python exception chaining, not masked. -/
theorem insert_failure_rollback_spec (schema_name e : List Char)
    (pre post : List (Option (List Char))) (rollbackResult : Option (List Char))
    (hpre : ∀ x ∈ pre, x = none) :
    (insert_data_run schema_name (pre ++ some e :: post) rollbackResult).1 = 1 ∧
    ∃ chain,
      (insert_data_run schema_name (pre ++ some e :: post) rollbackResult).2
        = some chain ∧
      e ∈ chain ∧
      (rollbackResult = none →
        chain = [insertFailMsg schema_name e, e] ∧
        schema_name <:+: insertFailMsg schema_name e) ∧
      (∀ r, rollbackResult = some r →
        rollbackFailMsg r ∈ chain ∧ e ∈ chain) := by
  induction pre with
  | nil =>
    cases rollbackResult with
    | none =>
      refine ⟨rfl, [insertFailMsg schema_name e, e], rfl, by simp, ?_, ?_⟩
      · intro _
        exact ⟨rfl, ⟨("Failed to insert records into schema ").toList,
          (": ").toList ++ e, by simp [insertFailMsg]⟩⟩
      · intro r hr
        cases hr
    | some r =>
      refine ⟨rfl, [rollbackFailMsg r, r, e], rfl, by simp, ?_, ?_⟩
      · intro h
        cases h
      · intro r2 hr
        cases hr
        exact ⟨by simp, by simp⟩
  | cons x rest ih =>
    have hx : x = none := hpre x (List.mem_cons_self x rest)
    subst hx
    have hrest : ∀ y ∈ rest, y = none := fun y hy =>
      hpre y (List.mem_cons_of_mem _ hy)
    simpa [insert_data_run] using ih hrest

/-- Witness for C6: one successful batch, then a failing batch with message
`"boom"` and a failing rollback with message `"rb"`: exactly one rollback
is issued. -/
theorem insert_failure_rollback_spec_witness :
    (insert_data_run ("tbl").toList [none, some ("boom").toList]
        (some ("rb").toList)).1 = 1 :=
  (insert_failure_rollback_spec ("tbl").toList ("boom").toList [none] []
    (some ("rb").toList) (by simp)).1

/-! ### Claim C4 -/

theorem replaceChar_append (a b : List Char) (c : Char) (r : List Char) :
    replaceChar (a ++ b) c r = replaceChar a c r ++ replaceChar b c r := by
  induction a with
  | nil => rfl
  | cons x xs ih => simp [replaceChar, ih]

theorem replaceChar_eq_specEscapeItem (s : List Char) :
    replaceChar s dquoteC [bslashC, dquoteC] = specEscapeItem s := by
  induction s with
  | nil => rfl
  | cons x xs ih => simp [replaceChar, specEscapeItem, ih]

theorem double_replace_eq_specEscapeQuotes (s : List Char) :
    replaceChar (replaceChar s dquoteC [dquoteC, dquoteC])
        squoteC [squoteC, squoteC] = specEscapeQuotes s := by
  induction s with
  | nil => rfl
  | cons x xs ih =>
    rw [replaceChar, replaceChar_append, ih]
    by_cases hx : x = dquoteC
    · subst hx
      rw [if_pos rfl, specEscapeQuotes, if_pos rfl]
      rfl
    · rw [if_neg hx, specEscapeQuotes]
      by_cases hq : x = squoteC
      · subst hq
        rw [if_neg (by decide), if_pos rfl]
        rfl
      · rw [if_neg hx, if_neg hq]
        simp [replaceChar, hq]

/-- C4 (confirmed): the batch-writer literal encoding follows the claimed
rules: `None`/NaN → `NULL`; lists → bracketed comma-joined double-quoted
items with internal double quotes backslash-escaped; strings →
single-quote-wrapped with every double and single quote doubled (the last
conjunct is the concrete example: a string holding a single quote and a
double quote renders with each of them doubled inside the single-quote
wrapper); booleans → unquoted `true`/`false`;
anything else → its unquoted string conversion. -/
theorem insert_literal_encoding_spec :
    encodeCell PyVal.vnone = ("NULL").toList ∧
    encodeCell PyVal.vnan = ("NULL").toList ∧
    (∀ items, encodeCell (PyVal.vlist items)
      = '[' :: (List.intercalate [',']
          (items.map (fun v => dquoteC :: (specEscapeItem v ++ [dquoteC])))
          ++ [']'])) ∧
    (∀ s, encodeCell (PyVal.vstr s)
      = squoteC :: (specEscapeQuotes s ++ [squoteC])) ∧
    (∀ b, encodeCell (PyVal.vbool b)
      = if b then ("true").toList else ("false").toList) ∧
    (∀ r, encodeCell (PyVal.vother r) = r) ∧
    encodeCell (PyVal.vstr
        (("a").toList ++ squoteC :: (("b").toList ++ dquoteC :: ("c").toList)))
      = squoteC :: (("a").toList ++ squoteC :: squoteC ::
          (("b").toList ++ dquoteC :: dquoteC :: (("c").toList ++ [squoteC]))) := by
  refine ⟨rfl, rfl, ?_, ?_, fun b => rfl, fun r => rfl, by decide⟩
  · intro items
    simp only [encodeCell, replaceChar_eq_specEscapeItem]
  · intro s
    simp only [encodeCell]
    rw [double_replace_eq_specEscapeQuotes]

/-! ### Claim C1 -/

theorem insertBatches_eq_chunks {α : Type} (rows : List α) (B : Nat) :
    insertBatches rows B =
      (List.range ((rows.length + B - 1) / B)).map
        (fun i => ((rows.drop 1).drop (i * B)).take B) := by
  unfold insertBatches pyRange0
  rw [List.map_map]
  rfl

theorem chunks_flatten {α : Type} (B : Nat) (hB : 0 < B) :
    ∀ (k : Nat) (l : List α), l.length ≤ k * B →
      ((List.range k).map (fun i => (l.drop (i * B)).take B)).flatten = l := by
  intro k
  induction k with
  | zero =>
    intro l hl
    simp only [Nat.zero_mul, Nat.le_zero] at hl
    simp [List.eq_nil_of_length_eq_zero hl]
  | succ k ih =>
    intro l hl
    rw [List.range_succ_eq_map, List.map_cons, List.map_map, List.flatten_cons]
    have hcomp :
        ((fun i => (l.drop (i * B)).take B) ∘ Nat.succ)
          = fun i => (((l.drop B).drop (i * B)).take B) := by
      funext i
      simp only [Function.comp]
      rw [List.drop_drop, Nat.succ_mul, Nat.add_comm]
    have hl2 : l.length ≤ k * B + B := by
      rw [show (k + 1) * B = k * B + B from by ring] at hl
      exact hl
    rw [hcomp, ih (l.drop B) (by simp only [List.length_drop]; omega)]
    simp

theorem ceilDiv_mul_ge (n B : Nat) (hB : 0 < B) : n ≤ (n + B - 1) / B * B := by
  rcases Nat.eq_zero_or_pos n with hn | hn
  · simp [hn]
  · have h1 : n + B - 1 = (n - 1) + B := by omega
    rw [h1, Nat.add_div_right _ hB]
    have hq := Nat.div_add_mod (n - 1) B
    have hr : (n - 1) % B < B := Nat.mod_lt _ hB
    have expand : ((n - 1) / B + 1) * B = B * ((n - 1) / B) + B := by ring
    rw [expand]
    omega

theorem insertBatches_flatten {α : Type} (rows : List α) (B : Nat) (hB : 0 < B) :
    (insertBatches rows B).flatten = rows.drop 1 := by
  rw [insertBatches_eq_chunks]
  apply chunks_flatten B hB
  have h := ceilDiv_mul_ge rows.length B hB
  simp only [List.length_drop]
  omega

theorem insertBatches_map_length {α : Type} (rows : List α) (B : Nat) :
    (insertBatches rows B).map List.length
      = (List.range ((rows.length + B - 1) / B)).map
          (fun i => min B (rows.length - 1 - i * B)) := by
  rw [insertBatches_eq_chunks, List.map_map]
  congr 1
  funext i
  simp only [Function.comp, List.length_take, List.length_drop]

/-- C1 (amended): `insert_data` silently drops the FIRST row of the frame
(the slice at `client.py:690`) and ranges over the original total, so with
`N = 2·B + 1` rows it issues exactly 3 batch commands of sizes `B`, `B`
and `0` — the last command is empty, not 1 row — inserting every row
except the first exactly once; with 2500 rows and batch size 1000 it
issues 3 batches of sizes 1000, 1000 and 499, again dropping the first
row. -/
theorem insert_data_chunking_corrected {α : Type} (B : Nat)
    (rows rows2 : List α) (hB : 0 < B)
    (hlen : rows.length = 2 * B + 1) (hlen2 : rows2.length = 2500) :
    (insertBatches rows B).length = 3 ∧
    (insertBatches rows B).map List.length = [B, B, 0] ∧
    (insertBatches rows B).flatten = rows.drop 1 ∧
    (insertBatches rows2 1000).map List.length = [1000, 1000, 499] ∧
    (insertBatches rows2 1000).flatten = rows2.drop 1 := by
  have hdiv : (rows.length + B - 1) / B = 3 := by
    rw [hlen, show 2 * B + 1 + B - 1 = 3 * B from by omega]
    exact Nat.mul_div_cancel 3 hB
  have hdiv2 : (rows2.length + 1000 - 1) / 1000 = 3 := by
    rw [hlen2]
  refine ⟨?_, ?_, insertBatches_flatten rows B hB, ?_,
    insertBatches_flatten rows2 1000 (by omega)⟩
  · rw [insertBatches_eq_chunks, List.length_map, List.length_range, hdiv]
  · rw [insertBatches_map_length, hdiv, hlen,
      show List.range 3 = [0, 1, 2] from rfl]
    simp only [List.map_cons, List.map_nil]
    have e0 : min B (2 * B + 1 - 1 - 0 * B) = B := by omega
    have e1 : min B (2 * B + 1 - 1 - 1 * B) = B := by omega
    have e2 : min B (2 * B + 1 - 1 - 2 * B) = 0 := by omega
    rw [e0, e1, e2]
  · rw [insertBatches_map_length, hdiv2, hlen2,
      show List.range 3 = [0, 1, 2] from rfl]
    simp only [List.map_cons, List.map_nil]
    norm_num

/-- Witness for C1 (amended): at `B = 2`, `N = 5` the batch sizes are
`[2, 2, 0]`; at 2500 rows with batch size 1000 they are
`[1000, 1000, 499]`. -/
theorem insert_data_chunking_corrected_witness :
    (insertBatches (List.range 5) 2).map List.length = [2, 2, 0] ∧
    (insertBatches (List.range 2500) 1000).map List.length
      = [1000, 1000, 499] := by
  have h := insert_data_chunking_corrected 2 (List.range 5) (List.range 2500)
    (by omega) (by simp) (by simp)
  exact ⟨h.2.1, h.2.2.2.1⟩

/-- C1 counterexample: with `N = 2·B + 1 = 5` rows and `B = 2`, the claim
predicts a final batch of exactly 1 row and every row inserted exactly
once; the code issues 3 commands whose last batch is empty and never
inserts the first row. -/
theorem insert_data_chunking_claim_false :
    ((insertBatches (List.range 5) 2).getLastD []).length ≠ 1 ∧
    (insertBatches (List.range 5) 2).flatten ≠ List.range 5 ∧
    (insertBatches (List.range 5) 2).length = 3 := by
  decide

/-! ### Claim C3 -/

theorem getLastD_mem : ∀ (l : List Nat) (d : Nat), l ≠ [] → l.getLastD d ∈ l := by
  intro l
  induction l with
  | nil => intro d h; exact absurd rfl h
  | cons x xs ih =>
    intro d _
    cases xs with
    | nil => simp [List.getLastD]
    | cons y ys =>
      have h := ih x (by simp)
      rw [show (x :: y :: ys).getLastD d = (y :: ys).getLastD x from rfl]
      exact List.mem_cons_of_mem x h

theorem le_getLastD_of_sorted :
    ∀ l : List Nat, List.Pairwise (· < ·) l →
      ∀ d x, x ∈ l → x ≤ l.getLastD d := by
  intro l
  induction l with
  | nil => intro _ d x hx; simp at hx
  | cons a as ih =>
    intro hs d x hx
    rw [show (a :: as).getLastD d = as.getLastD a from by cases as <;> rfl]
    rcases List.mem_cons.mp hx with rfl | hx2
    · cases as with
      | nil => simp [List.getLastD]
      | cons b bs =>
        have hmem := getLastD_mem (b :: bs) x (by simp)
        have hlt := (List.pairwise_cons.mp hs).1 _ hmem
        omega
    · exact ih (List.pairwise_cons.mp hs).2 a x hx2

theorem filter_gt_append (a b : List Nat) (r : Nat)
    (ha : ∀ x ∈ a, ¬ r < x) (hb : ∀ x ∈ b, r < x) :
    (a ++ b).filter (fun x => decide (r < x)) = b := by
  rw [List.filter_append,
    List.filter_eq_nil_iff.mpr (fun x hx => by simpa using ha x hx),
    List.filter_eq_self.mpr (fun x hx => by simpa using hb x hx)]
  simp

theorem numPagesLen_zero (P : Nat) : numPagesLen 0 P = 1 := by
  simp [numPagesLen]

theorem numPagesLen_short (n P : Nat) (h0 : 0 < n) (hlt : n < P) :
    numPagesLen n P = 1 := by
  have hnd : ¬ P ∣ n := fun hd => absurd (Nat.le_of_dvd h0 hd) (by omega)
  rw [numPagesLen, if_neg hnd]
  exact Nat.div_eq_of_lt_le (by omega) (by omega)

theorem numPagesLen_step (n P : Nat) (hP : 0 < P) (h : P ≤ n) :
    numPagesLen n P = numPagesLen (n - P) P + 1 := by
  unfold numPagesLen
  by_cases hd : P ∣ n
  · have hd2 : P ∣ n - P := Nat.dvd_sub' hd dvd_rfl
    rw [if_pos hd, if_pos hd2]
    obtain ⟨k, rfl⟩ := hd
    have hk : 1 ≤ k := Nat.le_of_mul_le_mul_left (by simpa using h) hP
    obtain ⟨j, rfl⟩ : ∃ j, k = j + 1 := ⟨k - 1, by omega⟩
    have hsub : P * (j + 1) - P = P * j := by ring_nf; omega
    rw [hsub, Nat.mul_div_cancel_left _ hP, Nat.mul_div_cancel_left _ hP]
  · have hgt : P < n := lt_of_le_of_ne h (fun he => hd (he ▸ dvd_refl P))
    have hd2 : ¬ P ∣ n - P := by
      intro hc
      apply hd
      have h2 := Nat.dvd_add hc (dvd_refl P)
      rwa [Nat.sub_add_cancel h] at h2
    rw [if_neg hd, if_neg hd2]
    rw [show n + P - 1 = (n - P - 1) + P + P from by omega, Nat.add_div_right _ hP,
      Nat.add_div_right _ hP]
    rw [show n - P + P - 1 = (n - P - 1) + P from by omega, Nat.add_div_right _ hP]

theorem readLoop_spec (P : Nat) (hP : 0 < P) :
    ∀ (fuel : Nat) (done pending results : List Nat) (lastRid : Option Nat)
      (count : Nat),
      pending.length < fuel →
      List.Pairwise (· < ·) (done ++ pending) →
      pageRows (done ++ pending) lastRid = pending →
      readLoop fuel (done ++ pending) lastRid P results count
        = some (results ++ pending, count + numPagesLen pending.length P) := by
  intro fuel
  induction fuel with
  | zero =>
    intro done pending results lastRid count hfuel _ _
    exact absurd hfuel (Nat.not_lt_zero _)
  | succ fuel ih =>
    intro done pending results lastRid count hfuel hsort hpage
    rw [readLoop]
    simp only [hpage]
    by_cases hpend : pending = []
    · subst hpend
      rw [List.take_nil, if_pos rfl]
      simp [numPagesLen_zero]
    · by_cases hlt : pending.length < P
      · have htake : pending.take P = pending := List.take_of_length_le (le_of_lt hlt)
        rw [htake, if_neg hpend, if_pos hlt,
          numPagesLen_short pending.length P (List.length_pos.mpr hpend) hlt]
      · push_neg at hlt
        have hdlen : (pending.take P).length = P := by
          rw [List.length_take]; omega
        have hdne : pending.take P ≠ [] := by
          intro h
          rw [h] at hdlen
          simp at hdlen
          omega
        rw [if_neg hdne, if_neg (by omega : ¬ (pending.take P).length < P)]
        set data := pending.take P with hdata
        set rest := pending.drop P with hrest
        set r := data.getLastD 0 with hr
        have hsplit : pending = data ++ rest := (List.take_append_drop P pending).symm
        have hassoc : done ++ pending = (done ++ data) ++ rest := by
          rw [hsplit, List.append_assoc]
        have hrmem : r ∈ data := getLastD_mem data 0 hdne
        have hrpend : r ∈ pending := List.mem_of_mem_take hrmem
        have hpensort : List.Pairwise (· < ·) pending :=
          List.Pairwise.sublist (List.sublist_append_right done pending) hsort
        have hdatasort : List.Pairwise (· < ·) data :=
          List.Pairwise.sublist (List.take_sublist P pending) hpensort
        have hpairs := (List.pairwise_append.mp (hsplit ▸ hpensort)).2.2
        have hdonep := (List.pairwise_append.mp hsort).2.2
        have hinv : pageRows (done ++ pending) (some r) = rest := by
          rw [pageRows, hassoc]
          apply filter_gt_append
          · intro x hx
            rcases List.mem_append.mp hx with hxd | hxdata
            · have := hdonep x hxd r hrpend
              omega
            · have := le_getLastD_of_sorted data hdatasort 0 x hxdata
              omega
          · intro x hx
            exact hpairs r hrmem x hx
        have hrestlen : rest.length = pending.length - P := by
          rw [hrest, List.length_drop]
        have hrec := ih (done ++ data) rest (results ++ data) (some r) (count + 1)
          (by omega)
          (by rw [← hassoc]; exact hsort)
          (by rw [← hassoc]; exact hinv)
        rw [hassoc, hrec]
        have e1 : results ++ data ++ rest = results ++ pending := by
          rw [hsplit, List.append_assoc]
        have e2 : count + 1 + numPagesLen rest.length P
            = count + numPagesLen pending.length P := by
          rw [hrestlen, numPagesLen_step pending.length P hP hlt]
          omega
        rw [e1, e2]

/-- C3 (confirmed): for a table of `N` rows (strictly ascending record
identifiers) and page size `P > 0`, `read_data` terminates and returns
exactly the `N` rows in their strictly ascending record-identifier order,
issuing `⌈N / P⌉` page requests — or `N / P + 1` when `P` exactly divides
`N > 0` (short-page termination costs one trailing empty request) — and
for `N = 0` it issues zero page requests and returns an empty result,
never looping. -/
theorem read_data_pagination_spec (table : List Nat) (P : Nat)
    (hP : 0 < P) (hsort : List.Pairwise (· < ·) table) :
    read_data table P
      = some (table,
          if table.length = 0 then 0
          else if P ∣ table.length then table.length / P + 1
          else (table.length + P - 1) / P) := by
  unfold read_data
  by_cases h0 : table.length = 0
  · rw [if_pos h0, if_pos h0]
    have ht : table = [] := List.eq_nil_of_length_eq_zero h0
    rw [ht]
  · rw [if_neg h0, if_neg h0]
    have h := readLoop_spec P hP (table.length + 1) [] table [] none 0
      (by omega) (by simpa using hsort) (by rw [List.nil_append]; rfl)
    rw [List.nil_append] at h
    rw [h]
    simp [numPagesLen]

/-- Witness for C3: the 3-row table `[3, 5, 9]` read with page size 2
yields all rows in order using 2 page requests. -/
theorem read_data_pagination_spec_witness :
    read_data [3, 5, 9] 2 = some ([3, 5, 9], 2) := by
  have h := read_data_pagination_spec [3, 5, 9] 2 (by omega) (by decide)
  simpa using h

end ArcadeDB
